import Mathlib

/- Shallow embedding of the Daily-Git-Brief backend collection pipeline.

   Sources embedded:
   - src/backend/src/services/collector.rs  (DataCollector::collect)
   - src/backend/src/services/github.rs     (GitHubClient::get_repo_languages)
   - src/backend/src/db.rs                  (Database::get_existing_repo_ids,
                                             Database::save_trending_repo upsert)
   - src/backend/src/api/handlers.rs        (trigger_collect guard)
   - src/backend/src/main.rs                (scheduled cron trigger)

   Modelling conventions:
   - Rust f64 percentages are modelled as exact rationals (ℚ).
   - Rust i64/i32 parsing is modelled on the character list of the string,
     with the machine-integer range check made explicit.
   - Asynchronous effects (HTTP calls, LLM calls, DB writes) are modelled by
     oracles in an `Env` record giving each call's outcome; the run is then a
     pure function of the environment, returning the Ok/Err result together
     with the trace of its observable side effects (a `RunLog`).
   - `tokio::time::sleep` (rate limiting) has no observable effect and is
     not modelled.
-/

namespace DGB

/-! ### String→integer parsing (Rust `str::parse::<i64>` / `<i32>`) -/

/-- Numeric value of a decimal digit character, `none` for non-digits. -/
def digitVal (c : Char) : Option Nat :=
  if c.isDigit then some (c.toNat - 48) else none

/-- Parse a nonempty all-digit character list as a natural number
(accepting leading zeros, as Rust's integer `parse` does). -/
def parseDigits : List Char → Nat → Option Nat
  | [], _ => none
  | [c], acc => (digitVal c).map (fun d => acc * 10 + d)
  | c :: rest, acc =>
    match digitVal c with
    | some d => parseDigits rest (acc * 10 + d)
    | none => none

/-- Parse an optionally signed decimal integer, as Rust's `str::parse` for a
signed integer type does before its range check: an optional `+`/`-` sign
followed by at least one digit, nothing else. -/
def parseSigned (s : String) : Option Int :=
  match s.data with
  | '-' :: rest => (parseDigits rest 0).map (fun n => -(n : Int))
  | '+' :: rest => (parseDigits rest 0).map (fun n => (n : Int))
  | cs => (parseDigits cs 0).map (fun n => (n : Int))

/-- Rust `s.parse::<i64>()`: parse plus the i64 range check (overflow is a
parse error). -/
def parseI64 (s : String) : Option Int :=
  match parseSigned s with
  | some n => if -(2 ^ 63) ≤ n ∧ n < 2 ^ 63 then some n else none
  | none => none

/-- Rust `s.parse::<i32>()`: parse plus the i32 range check. -/
def parseI32 (s : String) : Option Int :=
  match parseSigned s with
  | some n => if -(2 ^ 31) ≤ n ∧ n < 2 ^ 31 then some n else none
  | none => none

/-- collector.rs line 60: `oss_repo.repo_id.parse().unwrap_or(0)`. -/
def parseRepoId (s : String) : Int :=
  (parseI64 s).getD 0

/-- Rust `opt.as_ref().and_then(|s| s.parse::<i32>().ok())`
(collector.rs lines 122-125). -/
def parseI32Opt (o : Option String) : Option Int :=
  o.bind parseI32

/-- Rust `opt.as_ref().and_then(|s| s.parse::<f64>().ok())` (collector.rs
line 126), modelled on exact rationals: an optionally signed decimal
numeral with an optional fractional part.  (Scientific notation and f64
rounding are not modelled; no claim depends on this field's value.) -/
def parseRatCore (cs : List Char) : Option ℚ :=
  match cs.splitOn '.' with
  | [a] => (parseDigits a 0).map (fun n => (n : ℚ))
  | [a, b] =>
    match parseDigits a 0, parseDigits b 0 with
    | some n, some f => some ((n : ℚ) + (f : ℚ) / (10 : ℚ) ^ b.length)
    | _, _ => none
  | _ => none

/-- Option-valued f64 parse used for `total_score`. -/
def parseRatOpt (o : Option String) : Option ℚ :=
  o.bind (fun s =>
    match s.data with
    | '-' :: rest => (parseRatCore rest).map (fun q => -q)
    | '+' :: rest => parseRatCore rest
    | cs => parseRatCore cs)

/-! ### Data model (src/backend/src/models.rs) -/

/-- models.rs `OssInsightRow`: one candidate from the trend source.  All
numeric fields arrive as strings and are parsed by the collector. -/
structure OssInsightRow where
  repo_id : String
  repo_name : String
  primary_language : Option String
  description : Option String
  stars : Option String
  forks : Option String
  pull_requests : Option String
  pushes : Option String
  total_score : Option String
  contributor_logins : Option String
  collection_names : Option String
deriving DecidableEq, Inhabited

/-- models.rs `LanguageInfo`: one (language, percentage) pair. -/
structure LanguageInfo where
  language : String
  percentage : ℚ
deriving DecidableEq, Inhabited

/-- models.rs `TrendingRepo`: the durable repo record keyed by
(date, repo_id). -/
structure TrendingRepo where
  date : String
  repo_id : Int
  repo_name : String
  primary_language : Option String
  description : Option String
  korean_summary : Option String
  stars : Option Int
  forks : Option Int
  pull_requests : Option Int
  pushes : Option Int
  total_score : Option ℚ
  contributor_logins : Option String
  collection_names : Option String
deriving DecidableEq, Inhabited

/-- models.rs `RepoLanguage`: one per-repo language row. -/
structure RepoLanguage where
  date : String
  repo_id : Int
  language : String
  percentage : ℚ
deriving DecidableEq, Inhabited

/-- models.rs `LanguageTrend`: one per-day normalized language trend row. -/
structure LanguageTrend where
  date : String
  language : String
  normalized_percentage : ℚ
  repo_count : Int
deriving DecidableEq, Inhabited

/-- models.rs `CollectionStatus`: one progress event. -/
structure CollectionStatus where
  is_running : Bool
  message : String
  current_count : Nat
  total_count : Nat
deriving DecidableEq, Inhabited

/-! ### Code-host client (src/backend/src/services/github.rs) -/

/-- Outcome of one HTTP request as seen by github.rs: the `send()` call can
fail (`?`-propagated), the response status can be non-success, the body can
fail to deserialize (`?`-propagated), or a typed body is obtained. -/
inductive HttpOutcome (α : Type) where
  | sendError (e : String)
  | notSuccess
  | jsonError (e : String)
  | body (v : α)
deriving DecidableEq, Inhabited

/-- The key list of a language byte map body (a Rust `HashMap` body always
has distinct keys; failures expose no keys). -/
def bodyKeys : HttpOutcome (List (String × Nat)) → List String
  | .body l => l.map (fun p => p.1)
  | _ => []

/-- Descending-percentage ordering used by get_repo_languages
(`sort_by(|a, b| b.percentage.partial_cmp(&a.percentage).unwrap())`). -/
def langGE (a b : LanguageInfo) : Prop := b.percentage ≤ a.percentage

instance : DecidableRel langGE :=
  fun a b => inferInstanceAs (Decidable (b.percentage ≤ a.percentage))

instance : IsTotal LanguageInfo langGE :=
  ⟨fun a b => le_total b.percentage a.percentage⟩

instance : IsTrans LanguageInfo langGE :=
  ⟨fun _ _ _ h1 h2 => le_trans h2 h1⟩

/-- Total bytes over a GitHub language byte map
(`languages.values().sum()`). -/
def totalBytes (languages : List (String × Nat)) : Nat :=
  (languages.map (fun p => p.2)).sum

/-- github.rs `GitHubClient::get_repo_languages` (lines 36-71), given the
outcome of the HTTP request.  The JSON body is a `HashMap<String, u64>`,
modelled as its entry list (keys distinct).  Rust's `Vec::sort_by` is a
stable sort, so it is modelled by the stable `List.insertionSort`. -/
def get_repo_languages (resp : HttpOutcome (List (String × Nat))) (threshold : ℚ) :
    Except String (List LanguageInfo) :=
  match resp with
  | .sendError e => .error e
  | .notSuccess => .ok []
  | .jsonError e => .error e
  | .body languages =>
    let total : Nat := totalBytes languages
    if total = 0 then .ok []
    else
      let lang_info : List LanguageInfo :=
        (languages.map (fun p =>
          { language := p.1, percentage := (p.2 : ℚ) / (total : ℚ) * 100 })).filter
          (fun l => threshold * 100 ≤ l.percentage)
      .ok (List.insertionSort langGE lang_info)

/-! ### Store (src/backend/src/db.rs) -/

/-- db.rs `Database::get_existing_repo_ids` (lines 251-264):
`SELECT repo_id FROM trending_repos WHERE date = ? AND korean_summary IS
NOT NULL`, over a modelled table of `trending_repos` rows. -/
def get_existing_repo_ids (rows : List TrendingRepo) (date : String) : List Int :=
  (rows.filter (fun r => r.date = date ∧ r.korean_summary ≠ none)).map
    (fun r => r.repo_id)

/-- db.rs `Database::save_trending_repo` (lines 72-110): upsert keyed by
(date, repo_id); on conflict every non-key field is overwritten by the new
record, so the matching row simply becomes the new record. -/
def save_trending_repo (table : List TrendingRepo) (r : TrendingRepo) :
    List TrendingRepo :=
  if table.any (fun x => x.date = r.date ∧ x.repo_id = r.repo_id) then
    table.map (fun x => if x.date = r.date ∧ x.repo_id = r.repo_id then r else x)
  else table ++ [r]

/-! ### The run environment (outcomes of all external calls) -/

/-- Outcomes of every external call a run can make.  Oracles are keyed by
the argument the Rust code passes (the slash-qualified repo name for the
HTTP clients, the full row for DB writes). -/
structure Env where
  /-- `oss_client.get_trending_repos()` (collector.rs line 36, `?`). -/
  trending : Except String (List OssInsightRow)
  /-- `db.get_existing_repo_ids(&today)` (collector.rs line 53). -/
  existingIdsResult : Except String (List Int)
  /-- `github_client.get_readme(repo_name)` (collector.rs line 70). -/
  readme : String → Except String (Option String)
  /-- `llm_client.summarize_readme_korean(&readme, repo_name)`
  (collector.rs line 72). -/
  summarize : String → String → Except String (Option String)
  /-- HTTP outcome of the `GET /repos/name/languages` request issued inside
  `get_repo_languages` (github.rs lines 39-46). -/
  langResponse : String → HttpOutcome (List (String × Nat))
  /-- `config.language_threshold`. -/
  threshold : ℚ
  /-- Whether `db.save_repo_language(&repo_lang)` succeeds (collector.rs
  line 104). -/
  saveRepoLanguageOk : RepoLanguage → Bool
  /-- Whether `db.save_trending_repo(&trending_repo)` succeeds
  (collector.rs line 131). -/
  saveTrendingRepoOk : TrendingRepo → Bool
  /-- Whether `db.save_language_trend(&trend)` succeeds (collector.rs
  line 162). -/
  saveLanguageTrendOk : LanguageTrend → Bool
  /-- `Utc::now().format("%Y-%m-%d")` computed once at run start. -/
  today : String
  /-- Whether a progress sender was passed (`progress_tx.is_some()`). -/
  progressAttached : Bool

/-- collector.rs lines 52-57: skip set, with
`.unwrap_or_default()` on a failed query. -/
def skipOf (env : Env) : List Int :=
  match env.existingIdsResult with
  | .ok ids => ids
  | .error _ => []

/-- collector.rs lines 69-85: the Korean summary for one candidate —
`None` on README fetch error, README absence, or summarizer error. -/
def summaryFor (env : Env) (repo_name : String) : Option String :=
  match env.readme repo_name with
  | .ok (some readme) =>
    match env.summarize readme repo_name with
    | .ok summary => summary
    | .error _ => none
  | .ok none => none
  | .error _ => none

/-- collector.rs lines 87-94: the language breakdown for one candidate —
empty on a language-fetch error. -/
def breakdownFor (env : Env) (repo_name : String) : List LanguageInfo :=
  match get_repo_languages (env.langResponse repo_name) env.threshold with
  | .ok langs => langs
  | .error _ => []

/-- collector.rs lines 96-103: the `repo_languages` rows built from one
candidate's breakdown. -/
def langRowsFor (env : Env) (repo_id : Int) (langs : List LanguageInfo) :
    List RepoLanguage :=
  langs.map (fun lang =>
    { date := env.today, repo_id := repo_id, language := lang.language
      percentage := lang.percentage })

/-- collector.rs lines 115-129: the `TrendingRepo` record assembled for one
candidate. -/
def mkRecord (env : Env) (repo : OssInsightRow) (summary : Option String) :
    TrendingRepo :=
  { date := env.today
    repo_id := parseRepoId repo.repo_id
    repo_name := repo.repo_name
    primary_language := repo.primary_language
    description := repo.description
    korean_summary := summary
    stars := parseI32Opt repo.stars
    forks := parseI32Opt repo.forks
    pull_requests := parseI32Opt repo.pull_requests
    pushes := parseI32Opt repo.pushes
    total_score := parseRatOpt repo.total_score
    contributor_logins := repo.contributor_logins
    collection_names := repo.collection_names }

/-- Observable per-candidate outcome of one iteration of the enrichment
loop (collector.rs lines 59-148). -/
structure ProcOut where
  /-- The candidate hit the skip set and the loop `continue`d. -/
  skipped : Bool
  /-- `get_readme` was called for this candidate. -/
  readmeCalled : Bool
  /-- `summarize_readme_korean` was called for this candidate. -/
  summarizeCalled : Bool
  /-- `get_repo_languages` was called for this candidate. -/
  languageCalled : Bool
  /-- The breakdown folded into the aggregation accumulator. -/
  breakdown : List LanguageInfo
  /-- `save_repo_language` rows attempted. -/
  attemptedLangRows : List RepoLanguage
  /-- `save_repo_language` rows that succeeded. -/
  savedLangRows : List RepoLanguage
  /-- The `TrendingRepo` record passed to `save_trending_repo` (none when
  skipped). -/
  record : Option TrendingRepo
  /-- `save_trending_repo` succeeded (so `collected_count` was bumped). -/
  recordSaved : Bool
  /-- The progress event sent after this candidate (none when skipped). -/
  event : Option CollectionStatus
deriving DecidableEq, Inhabited

/-- The outcome of a skipped iteration (collector.rs lines 64-67): the
loop `continue`s, so nothing is called, saved, folded or emitted. -/
def skippedOut : ProcOut :=
  { skipped := true, readmeCalled := false, summarizeCalled := false
    languageCalled := false, breakdown := [], attemptedLangRows := []
    savedLangRows := [], record := none, recordSaved := false, event := none }

/-- One iteration of the per-candidate loop (collector.rs lines 59-148) for
the candidate at position `i` of `total`.  The iteration reads only the
fixed environment, the fixed skip set and its own candidate, so it is a
pure function of those; the run then combines the iterations in order. -/
def processCandidate (env : Env) (skip : List Int) (total i : Nat)
    (repo : OssInsightRow) : ProcOut :=
  let repo_id : Int := parseRepoId repo.repo_id
  if repo_id ∈ skip then skippedOut
  else
    let korean_summary := summaryFor env repo.repo_name
    let summarizeCalled : Bool :=
      match env.readme repo.repo_name with
      | .ok (some _) => true
      | _ => false
    let languages := breakdownFor env repo.repo_name
    let langRows := langRowsFor env repo_id languages
    let trending_repo := mkRecord env repo korean_summary
    { skipped := false
      readmeCalled := true
      summarizeCalled := summarizeCalled
      languageCalled := true
      breakdown := languages
      attemptedLangRows := langRows
      savedLangRows := langRows.filter env.saveRepoLanguageOk
      record := some trending_repo
      recordSaved := env.saveTrendingRepoOk trending_repo
      event := some { is_running := true
                      message := "Processed " ++ repo.repo_name
                      current_count := i + 1, total_count := total } }

/-- The `for (i, oss_repo) in oss_repos.iter().enumerate()` loop
(collector.rs line 59), written as recursion with the running position
made explicit: each iteration paired as (position, candidate, outcome). -/
def loopItems (env : Env) (skip : List Int) (total : Nat) :
    Nat → List OssInsightRow → List (Nat × OssInsightRow × ProcOut)
  | _, [] => []
  | i, repo :: rest =>
    (i, repo, processCandidate env skip total i repo)
      :: loopItems env skip total (i + 1) rest

/-- All loop iterations of a run. -/
def itemsFor (env : Env) (rs : List OssInsightRow) :
    List (Nat × OssInsightRow × ProcOut) :=
  loopItems env (skipOf env) rs.length 0 rs

/-- collector.rs lines 108-112: fold one breakdown into the
`language_stats` accumulator (`HashMap<String, (f64, i32)>`, modelled as an
association list in insertion order): per entry, add the percentage and
bump the count. -/
def statsAdd : List (String × ℚ × Int) → String → ℚ → List (String × ℚ × Int)
  | [], lang, p => [(lang, p, 1)]
  | (l, s, c) :: rest, lang, p =>
    if l = lang then (l, s + p, c + 1) :: rest
    else (l, s, c) :: statsAdd rest lang p

/-- Fold a whole breakdown into the accumulator. -/
def foldBreak (st : List (String × ℚ × Int)) (b : List LanguageInfo) :
    List (String × ℚ × Int) :=
  b.foldl (fun st lang => statsAdd st lang.language lang.percentage) st

/-- Lookup of one language's accumulated (sum, count) in the accumulator,
`(0, 0)` when absent (the `or_insert((0.0, 0))` default). -/
def statsLookup : List (String × ℚ × Int) → String → ℚ × Int
  | [], _ => (0, 0)
  | (l, s, c) :: rest, lang => if l = lang then (s, c) else statsLookup rest lang

/-- The `language_stats` accumulator at the end of the loop. -/
def statsFor (env : Env) (rs : List OssInsightRow) : List (String × ℚ × Int) :=
  (itemsFor env rs).foldl (fun st t => foldBreak st t.2.2.breakdown) []

/-- collector.rs line 151: `language_stats.values().map(|(p, _)| p).sum()`. -/
def totalMassFor (env : Env) (rs : List OssInsightRow) : ℚ :=
  ((statsFor env rs).map (fun e => e.2.1)).sum

/-- collector.rs lines 153-165: the trend rows passed to
`save_language_trend` (none when the total mass is not positive). -/
def trendsFor (env : Env) (rs : List OssInsightRow) : List LanguageTrend :=
  if 0 < totalMassFor env rs then
    (statsFor env rs).map (fun e =>
      { date := env.today, language := e.1
        normalized_percentage := e.2.1 / totalMassFor env rs * 100
        repo_count := e.2.2 })
  else []

/-- collector.rs lines 131-135: `collected_count` at the end of the run. -/
def collectedFor (env : Env) (rs : List OssInsightRow) : Nat :=
  ((itemsFor env rs).filter (fun t => t.2.2.recordSaved)).length

/-- The full sequence of progress events sent on the channel (empty when no
sender was passed): the initial event (lines 40-47), one event per
non-skipped candidate (lines 140-147), and the terminal event
(lines 171-178). -/
def eventsFor (env : Env) (rs : List OssInsightRow) : List CollectionStatus :=
  if env.progressAttached then
    { is_running := true
      message := "Fetched " ++ toString rs.length ++ " repos from OSS Insight"
      current_count := 0, total_count := rs.length }
    :: ((itemsFor env rs).filterMap (fun t => t.2.2.event)
        ++ [{ is_running := false
              message := "Collection complete. Collected "
                ++ toString (collectedFor env rs) ++ " repos."
              current_count := rs.length, total_count := rs.length }])
  else []

/-- Trace of all observable side effects of one run. -/
structure RunLog where
  /-- Progress events actually sent, in order. -/
  events : List CollectionStatus
  /-- (position, repo_name) of every `get_readme` call. -/
  readmeCalls : List (Nat × String)
  /-- (position, repo_name) of every summarizer call. -/
  summarizeCalls : List (Nat × String)
  /-- (position, repo_name) of every `get_repo_languages` call. -/
  languageCalls : List (Nat × String)
  /-- Records passed to `save_trending_repo`, in order. -/
  attemptedRecords : List TrendingRepo
  /-- Records whose `save_trending_repo` succeeded, in order. -/
  savedRecords : List TrendingRepo
  /-- `repo_languages` rows whose save succeeded. -/
  savedLangRows : List RepoLanguage
  /-- Trend rows passed to `save_language_trend`. -/
  attemptedTrendRows : List LanguageTrend
  /-- Trend rows whose save succeeded. -/
  savedTrendRows : List LanguageTrend
deriving DecidableEq, Inhabited

/-- Call trace helper: the (position, name) pairs of candidates for which
`sel` reports a call. -/
def callsOf (env : Env) (rs : List OssInsightRow) (sel : ProcOut → Bool) :
    List (Nat × String) :=
  (itemsFor env rs).filterMap
    (fun t => if sel t.2.2 then some (t.1, t.2.1.repo_name) else none)

/-- The run log of a run over candidate set `rs`. -/
def runLogFor (env : Env) (rs : List OssInsightRow) : RunLog :=
  { events := eventsFor env rs
    readmeCalls := callsOf env rs (fun o => o.readmeCalled)
    summarizeCalls := callsOf env rs (fun o => o.summarizeCalled)
    languageCalls := callsOf env rs (fun o => o.languageCalled)
    attemptedRecords := (itemsFor env rs).filterMap (fun t => t.2.2.record)
    savedRecords := (itemsFor env rs).filterMap
      (fun t => if t.2.2.recordSaved then t.2.2.record else none)
    savedLangRows := ((itemsFor env rs).map (fun t => t.2.2.savedLangRows)).flatten
    attemptedTrendRows := trendsFor env rs
    savedTrendRows := (trendsFor env rs).filter env.saveLanguageTrendOk }

/-- collector.rs `DataCollector::collect` (lines 31-181): fails exactly
when the candidate fetch fails (`?` on line 36); otherwise returns
`collected_count` together with the trace of the run's side effects. -/
def collect (env : Env) : Except String (Nat × RunLog) :=
  match env.trending with
  | .error e => .error e
  | .ok rs => .ok (collectedFor env rs, runLogFor env rs)

/-! ### Spec-side aggregate measures (for the trend-normalization claim) -/

/-- Breakdowns of the candidates actually processed (not skipped), in
order. -/
def breakdownsFor (env : Env) (rs : List OssInsightRow) :
    List (List LanguageInfo) :=
  ((itemsFor env rs).filter (fun t => !t.2.2.skipped)).map (fun t => t.2.2.breakdown)

/-- Sum of `lang`'s percentages inside one breakdown. -/
def langSumIn (b : List LanguageInfo) (lang : String) : ℚ :=
  ((b.filter (fun l => l.language = lang)).map (fun l => l.percentage)).sum

/-- Number of entries for `lang` inside one breakdown. -/
def langCountIn (b : List LanguageInfo) (lang : String) : Nat :=
  (b.filter (fun l => l.language = lang)).length

/-- Total percentage accumulated for `lang` over the whole run. -/
def runLangSum (env : Env) (rs : List OssInsightRow) (lang : String) : ℚ :=
  ((breakdownsFor env rs).map (fun b => langSumIn b lang)).sum

/-- Number of processed candidates whose breakdown mentions `lang`. -/
def reposContaining (env : Env) (rs : List OssInsightRow) (lang : String) : Nat :=
  ((breakdownsFor env rs).filter (fun b => b.any (fun l => l.language = lang))).length

/-! ### Concurrency guard (src/backend/src/api/handlers.rs, src/backend/src/main.rs) -/

/-- Process-wide run-guard state: the `AppState.is_collecting` flag and the
number of collection runs currently executing. -/
structure GuardState where
  is_collecting : Bool
  activeRuns : Nat
deriving DecidableEq, Inhabited

/-- Outcome of `POST /api/collect`. -/
inductive TriggerOutcome where
  | conflict
  | accepted
deriving DecidableEq, Inhabited

/-- handlers.rs `trigger_collect` (lines 154-198): reject with 409 when
`is_collecting` is set, otherwise set the flag and spawn a run. -/
def trigger_collect (st : GuardState) : GuardState × TriggerOutcome :=
  if st.is_collecting then (st, .conflict)
  else ({ is_collecting := true, activeRuns := st.activeRuns + 1 }, .accepted)

/-- handlers.rs lines 176-184: the spawned task finishing — resets the flag
and the run stops being active. -/
def httpRunFinish (st : GuardState) : GuardState :=
  { is_collecting := false, activeRuns := st.activeRuns - 1 }

/-- main.rs lines 52-65: the cron job (`0 0 0 * * *`) starts a run
directly, neither checking nor setting `is_collecting`. -/
def scheduledTick (st : GuardState) : GuardState :=
  { st with activeRuns := st.activeRuns + 1 }

/-- A scheduled run finishing (main.rs lines 59-62): the flag is again
untouched. -/
def scheduledFinish (st : GuardState) : GuardState :=
  { st with activeRuns := st.activeRuns - 1 }

/-- One process-wide transition of the guard state. -/
inductive GuardStep : GuardState → GuardState → Prop where
  | http (st : GuardState) : GuardStep st (trigger_collect st).1
  | httpFinish (st : GuardState) : GuardStep st (httpRunFinish st)
  | cron (st : GuardState) : GuardStep st (scheduledTick st)
  | cronFinish (st : GuardState) : GuardStep st (scheduledFinish st)

/-- States reachable from process start (no flag set, no active run). -/
def GuardReachable (st : GuardState) : Prop :=
  Relation.ReflTransGen GuardStep { is_collecting := false, activeRuns := 0 } st

/-! ### Concrete runs used to exercise the theorems -/

/-- A candidate row carrying only an id and a name. -/
def mkRow (id name : String) : OssInsightRow :=
  { repo_id := id, repo_name := name, primary_language := none
    description := none, stars := none, forks := none, pull_requests := none
    pushes := none, total_score := none, contributor_logins := none
    collection_names := none }

/-- A stored `trending_repos` row carrying only a key and a summary. -/
def mkStoreRow (id : Int) (summary : Option String) : TrendingRepo :=
  { date := "2026-10-12", repo_id := id, repo_name := "octo/x"
    primary_language := none, description := none, korean_summary := summary
    stars := none, forks := none, pull_requests := none, pushes := none
    total_score := none, contributor_logins := none, collection_names := none }

/-- Two candidates, as in the spec's normalization example. -/
def rowsA : List OssInsightRow :=
  [mkRow "1" "octo/alpha", mkRow "2" "octo/beta"]

/-- Environment realizing the spec's normalization example: repo 1 has
languages [(A,40),(B,60)] and repo 2 has [(A,20),(B,80)] (as byte counts,
which a zero threshold turns into exactly those percentages); everything
else succeeds trivially. -/
def envA : Env :=
  { trending := .ok rowsA
    existingIdsResult := .ok []
    readme := fun _ => .ok none
    summarize := fun _ _ => .ok none
    langResponse := fun n =>
      if n = "octo/alpha" then .body [("A", 40), ("B", 60)]
      else .body [("A", 20), ("B", 80)]
    threshold := 0
    saveRepoLanguageOk := fun _ => true
    saveTrendingRepoOk := fun _ => true
    saveLanguageTrendOk := fun _ => true
    today := "2026-10-12"
    progressAttached := true }

/-- `envA` with a failing candidate fetch. -/
def envErr : Env :=
  { envA with trending := .error "boom" }

/-- `envA` with every language fetch failing at the transport level. -/
def envC6 : Env :=
  { envA with langResponse := fun _ => .sendError "down" }

/-- One candidate (id 1) while the store already holds a summarized repo
with a different id (2): the skip set has size 1 yet nothing is skipped. -/
def rowsB : List OssInsightRow :=
  [mkRow "1" "octo/alpha"]

/-- Environment refuting `count ≤ candidates − skip-set size`. -/
def envC5 : Env :=
  { envA with trending := .ok rowsB, existingIdsResult := .ok [2] }

/-- Store rows for the reprocessing run: repo 2 already summarized today,
repo 1 present but with no summary. -/
def storeRows : List TrendingRepo :=
  [mkStoreRow 2 (some "done"), mkStoreRow 1 none]

/-- Environment whose skip set is computed from `storeRows` by the
modelled `get_existing_repo_ids` query. -/
def envC2 : Env :=
  { envA with existingIdsResult := .ok (get_existing_repo_ids storeRows "2026-10-12") }

/-- `envA` with every README fetch failing. -/
def envC4 : Env :=
  { envA with readme := fun _ => .error "net" }

end DGB

namespace DGB

/-! ### Basic lemmas about the loop and the pipeline -/

theorem getLast_append_single {α : Type} :
    ∀ (l : List α) (a : α), (l ++ [a]).getLast? = some a
  | [], _ => rfl
  | [_], _ => rfl
  | x :: y :: ys, a => by
    simp only [List.cons_append]
    rw [List.getLast?_cons_cons]
    exact getLast_append_single (y :: ys) a


/-- C3: `collect` returns an error exactly when the candidate-set fetch
returns one; with a successful candidate fetch it returns `Ok` with the
collected count, whatever every other oracle does. -/
theorem collect_fails_iff_candidate_fetch_fails (env : Env) :
    (∀ e, collect env = .error e ↔ env.trending = .error e)
    ∧ (∀ rs, env.trending = .ok rs →
        collect env = .ok (collectedFor env rs, runLogFor env rs)) := by
  constructor
  · intro e
    cases htr : env.trending with
    | error e2 => simp [collect, htr]
    | ok rs => simp [collect, htr]
  · intro rs hrs
    simp [collect, hrs]

/-- Witness for C3: the error case and the all-other-failures case, on
concrete environments (in `envA` the skip query result is irrelevant and
every save succeeds; in `envErr` only the candidate fetch fails). -/
theorem collect_fails_iff_candidate_fetch_fails_witness :
    collect envErr = .error "boom"
    ∧ collect envA = .ok (collectedFor envA rowsA, runLogFor envA rowsA) :=
  ⟨((collect_fails_iff_candidate_fetch_fails envErr).1 "boom").mpr rfl,
   (collect_fails_iff_candidate_fetch_fails envA).2 rowsA rfl⟩

/-- C6: when the total accumulated percentage mass is zero, the run writes
no language-trend rows at all. -/
theorem zero_mass_writes_no_trend_rows (env : Env) (rs : List OssInsightRow)
    (hrs : env.trending = .ok rs) (h : totalMassFor env rs = 0) :
    collect env = .ok (collectedFor env rs, runLogFor env rs)
    ∧ (runLogFor env rs).attemptedTrendRows = []
    ∧ (runLogFor env rs).savedTrendRows = [] := by
  have ht : trendsFor env rs = [] := by simp [trendsFor, h]
  exact ⟨by simp [collect, hrs], by simp [runLogFor, ht], by simp [runLogFor, ht]⟩

/-- Witness for C6: with every language fetch failing the accumulated mass
is zero and no trend row is attempted or saved. -/
theorem zero_mass_writes_no_trend_rows_witness :
    totalMassFor envC6 rowsA = 0
    ∧ (runLogFor envC6 rowsA).attemptedTrendRows = []
    ∧ (runLogFor envC6 rowsA).savedTrendRows = [] := by
  have h0 : totalMassFor envC6 rowsA = 0 := by with_unfolding_all decide
  exact ⟨h0, (zero_mass_writes_no_trend_rows envC6 rowsA rfl h0).2.1,
    (zero_mass_writes_no_trend_rows envC6 rowsA rfl h0).2.2⟩

/-- C8: with a progress sender attached, the last event of a run is the
terminal one: `is_running = false` and both counters equal to the
candidate-set size. -/
theorem final_progress_event_terminal (env : Env) (rs : List OssInsightRow)
    (hp : env.progressAttached = true) (hrs : env.trending = .ok rs) :
    collect env = .ok (collectedFor env rs, runLogFor env rs)
    ∧ (runLogFor env rs).events.getLast? = some
        { is_running := false
          message := "Collection complete. Collected "
            ++ toString (collectedFor env rs) ++ " repos."
          current_count := rs.length
          total_count := rs.length } := by
  refine ⟨by simp [collect, hrs], ?_⟩
  show (eventsFor env rs).getLast? = _
  rw [eventsFor, if_pos hp, ← List.cons_append]
  exact getLast_append_single _ _

/-- Witness for C8 on a run where one of two candidates emits events. -/
theorem final_progress_event_terminal_witness :
    envA.progressAttached = true
    ∧ (runLogFor envA rowsA).events.getLast? = some
        { is_running := false
          message := "Collection complete. Collected "
            ++ toString (collectedFor envA rowsA) ++ " repos."
          current_count := rowsA.length
          total_count := rowsA.length } :=
  ⟨rfl, (final_progress_event_terminal envA rowsA rfl rfl).2⟩

theorem processCandidate_skip (env : Env) (skip : List Int) (total i : Nat)
    (repo : OssInsightRow) (h : parseRepoId repo.repo_id ∈ skip) :
    processCandidate env skip total i repo = skippedOut := by
  simp [processCandidate, h]

theorem processCandidate_run (env : Env) (skip : List Int) (total i : Nat)
    (repo : OssInsightRow) (h : parseRepoId repo.repo_id ∉ skip) :
    processCandidate env skip total i repo =
      { skipped := false
        readmeCalled := true
        summarizeCalled :=
          (match env.readme repo.repo_name with
           | .ok (some _) => true
           | _ => false)
        languageCalled := true
        breakdown := breakdownFor env repo.repo_name
        attemptedLangRows :=
          langRowsFor env (parseRepoId repo.repo_id) (breakdownFor env repo.repo_name)
        savedLangRows :=
          (langRowsFor env (parseRepoId repo.repo_id)
            (breakdownFor env repo.repo_name)).filter env.saveRepoLanguageOk
        record := some (mkRecord env repo (summaryFor env repo.repo_name))
        recordSaved := env.saveTrendingRepoOk
          (mkRecord env repo (summaryFor env repo.repo_name))
        event := some { is_running := true
                        message := "Processed " ++ repo.repo_name
                        current_count := i + 1, total_count := total } } := by
  simp [processCandidate, h]

theorem loopItems_mem (env : Env) (skip : List Int) (total : Nat) :
    ∀ (rs : List OssInsightRow) (n i : Nat) (repo : OssInsightRow),
      rs[i]? = some repo →
      (n + i, repo, processCandidate env skip total (n + i) repo)
        ∈ loopItems env skip total n rs := by
  intro rs
  induction rs with
  | nil => intro n i repo h; simp at h
  | cons r rest ih =>
    intro n i repo h
    cases i with
    | zero =>
      rw [List.getElem?_cons_zero, Option.some.injEq] at h
      subst h
      rw [Nat.add_zero]
      exact List.mem_cons_self _ _
    | succ j =>
      rw [List.getElem?_cons_succ] at h
      have hmem := ih (n + 1) j repo h
      have e : n + (j + 1) = (n + 1) + j := by omega
      rw [e]
      exact List.mem_cons_of_mem _ hmem

theorem loopItems_shape (env : Env) (skip : List Int) (total : Nat) :
    ∀ (rs : List OssInsightRow) (n : Nat) (t : Nat × OssInsightRow × ProcOut),
      t ∈ loopItems env skip total n rs →
      n ≤ t.1 ∧ rs[t.1 - n]? = some t.2.1
        ∧ t.2.2 = processCandidate env skip total t.1 t.2.1 := by
  intro rs
  induction rs with
  | nil => intro n t h; simp [loopItems] at h
  | cons r rest ih =>
    intro n t h
    simp only [loopItems, List.mem_cons] at h
    rcases h with h1 | h2
    · subst h1
      refine ⟨le_refl n, ?_, rfl⟩
      rw [Nat.sub_self, List.getElem?_cons_zero]
    · obtain ⟨hle, hget, hproc⟩ := ih (n + 1) t h2
      refine ⟨by omega, ?_, hproc⟩
      have e : t.1 - n = (t.1 - (n + 1)) + 1 := by omega
      rw [e, List.getElem?_cons_succ]
      exact hget

theorem loopItems_length (env : Env) (skip : List Int) (total : Nat) :
    ∀ (rs : List OssInsightRow) (n : Nat),
      (loopItems env skip total n rs).length = rs.length := by
  intro rs
  induction rs with
  | nil => intro n; rfl
  | cons r rest ih => intro n; simp [loopItems, ih]

/-- A call-trace pair with position `i` never appears when candidate `i`
is skipped and the selector rejects the skipped outcome. -/
theorem callsOf_skipped (env : Env) (rs : List OssInsightRow) (i : Nat)
    (repo : OssInsightRow) (hi : rs[i]? = some repo)
    (hskip : parseRepoId repo.repo_id ∈ skipOf env) (sel : ProcOut → Bool)
    (hsel : sel skippedOut = false) :
    ∀ nm : String, (i, nm) ∉ callsOf env rs sel := by
  intro nm hmem
  rw [callsOf, List.mem_filterMap] at hmem
  obtain ⟨t, ht, hg⟩ := hmem
  by_cases hs : sel t.2.2
  · rw [if_pos hs, Option.some.injEq] at hg
    have hti : t.1 = i := congrArg Prod.fst hg
    obtain ⟨-, hget, hproc⟩ := loopItems_shape env (skipOf env) rs.length rs 0 t ht
    rw [hti, Nat.sub_zero, hi, Option.some.injEq] at hget
    rw [hproc, hti, ← hget, processCandidate_skip env _ _ _ _ hskip, hsel] at hs
    exact Bool.false_ne_true hs
  · rw [if_neg hs] at hg
    exact Option.noConfusion hg

/-- A call-trace pair with position `i` does appear when candidate `i` is
processed and the selector accepts its outcome. -/
theorem callsOf_processed (env : Env) (rs : List OssInsightRow) (i : Nat)
    (repo : OssInsightRow) (hi : rs[i]? = some repo)
    (sel : ProcOut → Bool)
    (hsel : sel (processCandidate env (skipOf env) rs.length i repo) = true) :
    (i, repo.repo_name) ∈ callsOf env rs sel := by
  rw [callsOf, List.mem_filterMap]
  refine ⟨(i, repo, processCandidate env (skipOf env) rs.length i repo), ?_, ?_⟩
  · have := loopItems_mem env (skipOf env) rs.length rs 0 i repo hi
    rwa [Nat.zero_add] at this
  · rw [hsel]
    rfl

/-- C2: a candidate whose identifier is in the skip set (ids bearing a
non-null summary in the store for today) is never passed to the README
fetch, the summarizer, or the language fetch; a candidate whose rows in
the store all lack a summary is not skipped and is reprocessed. -/
theorem skip_set_prevents_reprocessing (env : Env) (rows : List TrendingRepo)
    (rs : List OssInsightRow) (i : Nat) (repo : OssInsightRow)
    (hq : env.existingIdsResult = .ok (get_existing_repo_ids rows env.today))
    (hrs : env.trending = .ok rs) (hi : rs[i]? = some repo) :
    (parseRepoId repo.repo_id ∈ skipOf env →
      ∀ nm : String,
        (i, nm) ∉ (runLogFor env rs).readmeCalls
        ∧ (i, nm) ∉ (runLogFor env rs).summarizeCalls
        ∧ (i, nm) ∉ (runLogFor env rs).languageCalls)
    ∧ ((∀ row ∈ rows, row.date = env.today →
          row.repo_id = parseRepoId repo.repo_id → row.korean_summary = none) →
        (i, repo.repo_name) ∈ (runLogFor env rs).readmeCalls
        ∧ (i, repo.repo_name) ∈ (runLogFor env rs).languageCalls) := by
  constructor
  · intro hskip nm
    exact ⟨callsOf_skipped env rs i repo hi hskip _ rfl nm,
      callsOf_skipped env rs i repo hi hskip _ rfl nm,
      callsOf_skipped env rs i repo hi hskip _ rfl nm⟩
  · intro hnone
    have hns : parseRepoId repo.repo_id ∉ skipOf env := by
      rw [skipOf, hq]
      intro hmem
      rw [get_existing_repo_ids, List.mem_map] at hmem
      obtain ⟨row, hrow, hid⟩ := hmem
      rw [List.mem_filter] at hrow
      have hprops := of_decide_eq_true hrow.2
      exact hprops.2 (hnone row hrow.1 hprops.1 hid)
    constructor
    · exact callsOf_processed env rs i repo hi _
        (by rw [processCandidate_run env _ _ _ _ hns])
    · exact callsOf_processed env rs i repo hi _
        (by rw [processCandidate_run env _ _ _ _ hns])

/-- Witness for C2: with the store holding a summarized row for id 2 and a
summary-less row for id 1, candidate "1" (position 0) is reprocessed while
candidate "2" (position 1) is never passed to any fetch. -/
theorem skip_set_prevents_reprocessing_witness :
    (0, "octo/alpha") ∈ (runLogFor envC2 rowsA).readmeCalls
    ∧ (0, "octo/alpha") ∈ (runLogFor envC2 rowsA).languageCalls
    ∧ (1, "octo/beta") ∉ (runLogFor envC2 rowsA).readmeCalls
    ∧ (1, "octo/beta") ∉ (runLogFor envC2 rowsA).summarizeCalls
    ∧ (1, "octo/beta") ∉ (runLogFor envC2 rowsA).languageCalls := by
  have h1 := (skip_set_prevents_reprocessing envC2 storeRows rowsA 0
    (mkRow "1" "octo/alpha") rfl rfl rfl).2 (by with_unfolding_all decide)
  have h2 := (skip_set_prevents_reprocessing envC2 storeRows rowsA 1
    (mkRow "2" "octo/beta") rfl rfl rfl).1 (by with_unfolding_all decide)
    "octo/beta"
  exact ⟨h1.1, h1.2, h2.1, h2.2.1, h2.2.2⟩

theorem processCandidate_skipped_eq (env : Env) (skip : List Int)
    (total i : Nat) (repo : OssInsightRow) :
    (processCandidate env skip total i repo).skipped =
      decide (parseRepoId repo.repo_id ∈ skip) := by
  by_cases h : parseRepoId repo.repo_id ∈ skip
  · rw [processCandidate_skip env skip total i repo h]
    simp [skippedOut, h]
  · rw [processCandidate_run env skip total i repo h]
    simp [h]

theorem processCandidate_saved_isSome (env : Env) (skip : List Int)
    (total i : Nat) (repo : OssInsightRow) :
    (processCandidate env skip total i repo).recordSaved = true →
    (processCandidate env skip total i repo).record.isSome = true := by
  by_cases h : parseRepoId repo.repo_id ∈ skip
  · rw [processCandidate_skip env skip total i repo h]
    intro hfalse
    exact absurd hfalse (by simp [skippedOut])
  · rw [processCandidate_run env skip total i repo h]
    intro _
    rfl

theorem filterMap_saved_length :
    ∀ l : List (Nat × OssInsightRow × ProcOut),
      (∀ t ∈ l, t.2.2.recordSaved = true → t.2.2.record.isSome = true) →
      (l.filterMap
        (fun t => if t.2.2.recordSaved then t.2.2.record else none)).length
        = (l.filter (fun t => t.2.2.recordSaved)).length := by
  intro l
  induction l with
  | nil => intro _; rfl
  | cons x xs ih =>
    intro h
    have hx := h x (List.mem_cons_self x xs)
    have htl := fun t ht => h t (List.mem_cons_of_mem x ht)
    cases hs : x.2.2.recordSaved with
    | false =>
      simpa [List.filterMap_cons, List.filter_cons, hs] using ih htl
    | true =>
      obtain ⟨r, hr⟩ := Option.isSome_iff_exists.mp (hx hs)
      simp [List.filterMap_cons, List.filter_cons, hs, hr, ih htl]

theorem filter_two_disjoint_length {α : Type} (p q : α → Bool) :
    ∀ l : List α, (∀ x ∈ l, p x = true → q x = false) →
      (l.filter p).length + (l.filter q).length ≤ l.length := by
  intro l
  induction l with
  | nil => intro _; simp
  | cons x xs ih =>
    intro h
    have hx := h x (List.mem_cons_self x xs)
    have htl := fun t ht => h t (List.mem_cons_of_mem x ht)
    have hrec := ih htl
    cases hp : p x with
    | true =>
      simp [List.filter_cons, hp, hx hp]
      omega
    | false =>
      cases hq : q x with
      | true =>
        simp [List.filter_cons, hp, hq]
        omega
      | false =>
        simp [List.filter_cons, hp, hq]
        omega

theorem loopItems_skipped_filter (env : Env) (skip : List Int) (total : Nat) :
    ∀ (rs : List OssInsightRow) (n : Nat),
      ((loopItems env skip total n rs).filter (fun t => t.2.2.skipped)).length
        = (rs.filter (fun r => parseRepoId r.repo_id ∈ skip)).length := by
  intro rs
  induction rs with
  | nil => intro n; rfl
  | cons r rest ih =>
    intro n
    rw [loopItems, List.filter_cons, List.filter_cons]
    by_cases h : parseRepoId r.repo_id ∈ skip
    · rw [if_pos (by simpa [processCandidate_skipped_eq] using h),
        if_pos (by simpa using h)]
      simp [ih]
    · rw [if_neg (by simpa [processCandidate_skipped_eq] using h),
        if_neg (by simpa using h)]
      exact ih (n + 1)

/-- C5 (amended): the returned count equals the number of successful repo-
record writes, is at most the candidate-set size, and is at most the
candidate-set size minus the number of candidates whose parsed identifier
is in the skip set.  (The bound `candidates − skip-set size` stated in the
spec fails, because the skip set may contain identifiers that are not in
today's candidate set; see the counterexample.) -/
theorem collected_count_bounds (env : Env) (rs : List OssInsightRow)
    (hrs : env.trending = .ok rs) :
    collect env = .ok (collectedFor env rs, runLogFor env rs)
    ∧ collectedFor env rs = (runLogFor env rs).savedRecords.length
    ∧ collectedFor env rs ≤ rs.length
    ∧ collectedFor env rs ≤
        rs.length -
          (rs.filter (fun r => parseRepoId r.repo_id ∈ skipOf env)).length := by
  have hsome : ∀ t ∈ itemsFor env rs,
      t.2.2.recordSaved = true → t.2.2.record.isSome = true := by
    intro t ht
    obtain ⟨-, -, hproc⟩ :=
      loopItems_shape env (skipOf env) rs.length rs 0 t ht
    rw [hproc]
    exact processCandidate_saved_isSome env (skipOf env) rs.length t.1 t.2.1
  have hlen : (itemsFor env rs).length = rs.length :=
    loopItems_length env (skipOf env) rs.length rs 0
  have hdisj : ∀ t ∈ itemsFor env rs,
      (fun t : Nat × OssInsightRow × ProcOut => t.2.2.recordSaved) t = true →
      (fun t : Nat × OssInsightRow × ProcOut => t.2.2.skipped) t = false := by
    intro t ht hsaved
    have hsaved2 : t.2.2.recordSaved = true := hsaved
    show t.2.2.skipped = false
    obtain ⟨-, -, hproc⟩ :=
      loopItems_shape env (skipOf env) rs.length rs 0 t ht
    by_cases h : parseRepoId t.2.1.repo_id ∈ skipOf env
    · rw [hproc, processCandidate_skip env _ _ _ _ h] at hsaved2
      exact absurd hsaved2 (by simp [skippedOut])
    · rw [hproc, processCandidate_run env _ _ _ _ h]
  have hb := filter_two_disjoint_length _ _ (itemsFor env rs) hdisj
  have hskipcount := loopItems_skipped_filter env (skipOf env) rs.length rs 0
  refine ⟨by simp [collect, hrs], ?_, ?_, ?_⟩
  · show collectedFor env rs =
      ((itemsFor env rs).filterMap
        (fun t => if t.2.2.recordSaved then t.2.2.record else none)).length
    rw [filterMap_saved_length (itemsFor env rs) hsome]
    rfl
  · calc collectedFor env rs
        ≤ (itemsFor env rs).length := List.length_filter_le _ _
      _ = rs.length := hlen
  · have hskipcount2 : ((itemsFor env rs).filter
        (fun t => t.2.2.skipped)).length
        = (rs.filter (fun r => parseRepoId r.repo_id ∈ skipOf env)).length :=
      hskipcount
    show ((itemsFor env rs).filter (fun t => t.2.2.recordSaved)).length ≤ _
    rw [← hskipcount2, ← hlen]
    omega

/-- Witness for C5 (amended) on a concrete run: two candidates, none
skipped, both saved. -/
theorem collected_count_bounds_witness :
    collect envA = .ok (collectedFor envA rowsA, runLogFor envA rowsA)
    ∧ collectedFor envA rowsA = (runLogFor envA rowsA).savedRecords.length
    ∧ collectedFor envA rowsA ≤ rowsA.length
    ∧ collectedFor envA rowsA ≤
        rowsA.length -
          (rowsA.filter (fun r => parseRepoId r.repo_id ∈ skipOf envA)).length :=
  collected_count_bounds envA rowsA rfl

/-- C5 counterexample: with one candidate (id 1) and a store already
holding a summarized repo with the unrelated id 2, the skip set has size 1
yet the run persists its single candidate, so the claimed bound
`count ≤ candidate-set size − skip-set size` (1 ≤ 1 − 1) is false. -/
theorem skip_set_size_bound_fails :
    collect envC5 = .ok (collectedFor envC5 rowsB, runLogFor envC5 rowsB)
    ∧ collectedFor envC5 rowsB = 1
    ∧ rowsB.length = 1
    ∧ (skipOf envC5).length = 1
    ∧ ¬ (collectedFor envC5 rowsB ≤ rowsB.length - (skipOf envC5).length) := by
  refine ⟨rfl, ?_, rfl, rfl, ?_⟩
  · with_unfolding_all decide
  · with_unfolding_all decide

/-- C10: an unparsable repo-id string falls back to the numeric identifier
0 (`unwrap_or(0)`); such a candidate is skipped whenever 0 is in the skip
set, and otherwise is persisted under the key (today, 0), where the
store's upsert makes a later write with the same key replace the earlier
record. -/
theorem unparsable_id_collapses_to_zero (env : Env) (skip : List Int)
    (total i : Nat) (repo : OssInsightRow)
    (h : parseI64 repo.repo_id = none) :
    parseRepoId repo.repo_id = 0
    ∧ (0 ∈ skip → processCandidate env skip total i repo = skippedOut)
    ∧ (0 ∉ skip →
        (processCandidate env skip total i repo).record =
          some (mkRecord env repo (summaryFor env repo.repo_name))
        ∧ (mkRecord env repo (summaryFor env repo.repo_name)).repo_id = 0
        ∧ (mkRecord env repo (summaryFor env repo.repo_name)).date = env.today)
    ∧ (∀ (table : List TrendingRepo) (r r2 : TrendingRepo),
        r.date = r2.date → r.repo_id = r2.repo_id →
        table.any (fun x => x.date = r.date ∧ x.repo_id = r.repo_id) = false →
        save_trending_repo (save_trending_repo table r) r2 = table ++ [r2]) := by
  have hid : parseRepoId repo.repo_id = 0 := by
    rw [parseRepoId, h]
    rfl
  refine ⟨hid, ?_, ?_, ?_⟩
  · intro hmem
    exact processCandidate_skip env skip total i repo (by rw [hid]; exact hmem)
  · intro hmem
    have hns : parseRepoId repo.repo_id ∉ skip := by rw [hid]; exact hmem
    rw [processCandidate_run env skip total i repo hns]
    exact ⟨rfl, by simp [mkRecord, hid], rfl⟩
  · intro table r r2 hd hi2 hnone
    have hall := List.any_eq_false.mp hnone
    have h1 : save_trending_repo table r = table ++ [r] := by
      rw [save_trending_repo, hnone]
      simp
    rw [h1, save_trending_repo]
    have hrp : r.date = r2.date ∧ r.repo_id = r2.repo_id := ⟨hd, hi2⟩
    have hany : (table ++ [r]).any
        (fun x => x.date = r2.date ∧ x.repo_id = r2.repo_id) = true := by
      rw [List.any_append]
      have hone : ([r].any
          (fun x => x.date = r2.date ∧ x.repo_id = r2.repo_id)) = true := by
        simp [hd, hi2]
      rw [hone]
      simp
    rw [if_pos hany, List.map_append]
    have hmap : table.map (fun x =>
        if x.date = r2.date ∧ x.repo_id = r2.repo_id then r2 else x) = table := by
      have hid2 : ∀ x ∈ table,
          (if x.date = r2.date ∧ x.repo_id = r2.repo_id then r2 else x) = x := by
        intro x hx
        have hfx := hall x hx
        simp only [decide_eq_true_eq] at hfx
        exact if_neg (fun hc => hfx ⟨hc.1.trans hd.symm, hc.2.trans hi2.symm⟩)
      exact (List.map_congr_left hid2).trans (List.map_id table)
    rw [hmap]
    simp only [List.map_cons, List.map_nil]
    rw [if_pos hrp]

/-- C7 (code bug): the HTTP trigger rejects a second HTTP start while a
run is active and leaves the state untouched, but the scheduled (cron)
trigger in main.rs neither checks nor sets `is_collecting`, so a state
with two simultaneously active runs is reachable — the process-wide
at-most-one-run property fails. -/
theorem cron_bypasses_run_guard :
    trigger_collect { is_collecting := true, activeRuns := 1 } =
      ({ is_collecting := true, activeRuns := 1 }, .conflict)
    ∧ GuardReachable { is_collecting := true, activeRuns := 2 }
    ∧ ¬ (∀ st : GuardState, GuardReachable st → st.activeRuns ≤ 1) := by
  have h1 : GuardStep { is_collecting := false, activeRuns := 0 }
      { is_collecting := true, activeRuns := 1 } := by
    simpa [trigger_collect] using
      GuardStep.http { is_collecting := false, activeRuns := 0 }
  have h2 : GuardStep { is_collecting := true, activeRuns := 1 }
      { is_collecting := true, activeRuns := 2 } := by
    simpa [scheduledTick] using
      GuardStep.cron { is_collecting := true, activeRuns := 1 }
  have hreach : GuardReachable { is_collecting := true, activeRuns := 2 } :=
    Relation.ReflTransGen.tail
      (Relation.ReflTransGen.tail Relation.ReflTransGen.refl h1) h2
  refine ⟨rfl, hreach, fun hall => ?_⟩
  exact absurd (hall _ hreach) (by decide)

/-! ### Accumulator algebra (for the trend-normalization claim) -/

theorem statsLookup_statsAdd_same (st : List (String × ℚ × Int))
    (lang : String) (p : ℚ) :
    statsLookup (statsAdd st lang p) lang =
      ((statsLookup st lang).1 + p, (statsLookup st lang).2 + 1) := by
  induction st with
  | nil => simp [statsAdd, statsLookup]
  | cons e rest ih =>
    obtain ⟨l, s, c⟩ := e
    by_cases hl : l = lang
    · simp [statsAdd, statsLookup, hl]
    · simp [statsAdd, statsLookup, hl, ih]

theorem statsLookup_statsAdd_other (st : List (String × ℚ × Int))
    (lang lang2 : String) (p : ℚ) (h : lang2 ≠ lang) :
    statsLookup (statsAdd st lang p) lang2 = statsLookup st lang2 := by
  induction st with
  | nil =>
    simp only [statsAdd, statsLookup]
    rw [if_neg (fun hc => h hc.symm)]
  | cons e rest ih =>
    obtain ⟨l, s, c⟩ := e
    by_cases hl : l = lang
    · simp only [statsAdd, if_pos hl, statsLookup]
      have hne : ¬ l = lang2 := fun hc => h (hc.symm.trans hl)
      rw [if_neg hne, if_neg hne]
    · simp only [statsAdd, if_neg hl, statsLookup]
      by_cases h2 : l = lang2
      · rw [if_pos h2, if_pos h2]
      · rw [if_neg h2, if_neg h2, ih]

theorem statsLookup_foldBreak_fst (b : List LanguageInfo) :
    ∀ (st : List (String × ℚ × Int)) (lang : String),
    (statsLookup (foldBreak st b) lang).1 =
      (statsLookup st lang).1 + langSumIn b lang := by
  induction b with
  | nil => intro st lang; simp [foldBreak, langSumIn]
  | cons e b2 ih =>
    intro st lang
    have hstep : foldBreak st (e :: b2) =
        foldBreak (statsAdd st e.language e.percentage) b2 := rfl
    rw [hstep, ih]
    by_cases he : e.language = lang
    · rw [he, statsLookup_statsAdd_same]
      have hsum : langSumIn (e :: b2) lang = e.percentage + langSumIn b2 lang := by
        simp [langSumIn, List.filter_cons, he]
      rw [hsum]
      ring
    · rw [statsLookup_statsAdd_other st e.language lang e.percentage
        (fun hc => he hc.symm)]
      have hsum : langSumIn (e :: b2) lang = langSumIn b2 lang := by
        simp [langSumIn, List.filter_cons, he]
      rw [hsum]

theorem statsLookup_foldBreak_snd (b : List LanguageInfo) :
    ∀ (st : List (String × ℚ × Int)) (lang : String),
    (statsLookup (foldBreak st b) lang).2 =
      (statsLookup st lang).2 + (langCountIn b lang : Int) := by
  induction b with
  | nil => intro st lang; simp [foldBreak, langCountIn]
  | cons e b2 ih =>
    intro st lang
    have hstep : foldBreak st (e :: b2) =
        foldBreak (statsAdd st e.language e.percentage) b2 := rfl
    rw [hstep, ih]
    by_cases he : e.language = lang
    · rw [he, statsLookup_statsAdd_same]
      have hcnt : langCountIn (e :: b2) lang = langCountIn b2 lang + 1 := by
        simp [langCountIn, List.filter_cons, he]
      rw [hcnt]
      push_cast
      ring
    · rw [statsLookup_statsAdd_other st e.language lang e.percentage
        (fun hc => he hc.symm)]
      have hcnt : langCountIn (e :: b2) lang = langCountIn b2 lang := by
        simp [langCountIn, List.filter_cons, he]
      rw [hcnt]

theorem statsAdd_keys_of_mem (st : List (String × ℚ × Int)) (lang : String)
    (p : ℚ) (h : lang ∈ st.map (fun e => e.1)) :
    (statsAdd st lang p).map (fun e => e.1) = st.map (fun e => e.1) := by
  induction st with
  | nil => simp at h
  | cons e rest ih =>
    obtain ⟨l, s, c⟩ := e
    by_cases hl : l = lang
    · simp only [statsAdd, if_pos hl, List.map_cons]
    · have h2 : lang ∈ rest.map (fun e => e.1) := by
        rcases List.mem_cons.mp h with hc | hc
        · exact absurd hc.symm hl
        · exact hc
      simp only [statsAdd, if_neg hl, List.map_cons, ih h2]

theorem statsAdd_keys_of_not_mem (st : List (String × ℚ × Int)) (lang : String)
    (p : ℚ) (h : lang ∉ st.map (fun e => e.1)) :
    (statsAdd st lang p).map (fun e => e.1)
      = st.map (fun e => e.1) ++ [lang] := by
  induction st with
  | nil => simp [statsAdd]
  | cons e rest ih =>
    obtain ⟨l, s, c⟩ := e
    rw [List.map_cons, List.mem_cons] at h
    push_neg at h
    have hl : ¬ l = lang := fun hc => h.1 hc.symm
    simp only [statsAdd, if_neg hl, List.map_cons, ih h.2, List.cons_append]

theorem statsAdd_keys_nodup (st : List (String × ℚ × Int)) (lang : String)
    (p : ℚ) (h : (st.map (fun e => e.1)).Nodup) :
    ((statsAdd st lang p).map (fun e => e.1)).Nodup := by
  by_cases hm : lang ∈ st.map (fun e => e.1)
  · rw [statsAdd_keys_of_mem st lang p hm]
    exact h
  · rw [statsAdd_keys_of_not_mem st lang p hm]
    rw [List.nodup_append]
    exact ⟨h, List.nodup_singleton lang, by
      intro x hx hx2
      rw [List.mem_singleton] at hx2
      exact hm (hx2 ▸ hx)⟩

theorem statsLookup_of_mem (st : List (String × ℚ × Int))
    (lang : String) (s : ℚ) (c : Int)
    (hnd : (st.map (fun e => e.1)).Nodup) (hmem : (lang, s, c) ∈ st) :
    statsLookup st lang = (s, c) := by
  induction st with
  | nil => simp at hmem
  | cons e rest ih =>
    obtain ⟨l, s0, c0⟩ := e
    rw [List.map_cons, List.nodup_cons] at hnd
    rcases List.mem_cons.mp hmem with h1 | h1
    · cases h1
      simp [statsLookup]
    · by_cases hl : l = lang
      · exfalso
        apply hnd.1
        rw [hl]
        exact List.mem_map.mpr ⟨(lang, s, c), h1, rfl⟩
      · rw [statsLookup, if_neg hl]
        exact ih hnd.2 h1

theorem statsLookup_not_mem (st : List (String × ℚ × Int)) (lang : String)
    (h : lang ∉ st.map (fun e => e.1)) :
    statsLookup st lang = (0, 0) := by
  induction st with
  | nil => rfl
  | cons e rest ih =>
    obtain ⟨l, s, c⟩ := e
    rw [List.map_cons, List.mem_cons] at h
    push_neg at h
    rw [statsLookup, if_neg (fun hc => h.1 hc.symm)]
    exact ih h.2

theorem ratSum_nonneg : ∀ l : List ℚ, (∀ x ∈ l, 0 ≤ x) → 0 ≤ l.sum := by
  intro l
  induction l with
  | nil => intro _; simp
  | cons x xs ih =>
    intro h
    rw [List.sum_cons]
    have h1 := h x (List.mem_cons_self x xs)
    have h2 := ih (fun y hy => h y (List.mem_cons_of_mem x hy))
    positivity

theorem statsAdd_total (st : List (String × ℚ × Int)) (lang : String) (p : ℚ) :
    ((statsAdd st lang p).map (fun e => e.2.1)).sum
      = ((st.map (fun e => e.2.1)).sum) + p := by
  induction st with
  | nil => simp [statsAdd]
  | cons e rest ih =>
    obtain ⟨l, s, c⟩ := e
    by_cases hl : l = lang
    · simp only [statsAdd, if_pos hl, List.map_cons, List.sum_cons]
      ring
    · simp only [statsAdd, if_neg hl, List.map_cons, List.sum_cons, ih]
      ring

theorem foldBreak_total (b : List LanguageInfo) :
    ∀ st : List (String × ℚ × Int),
    ((foldBreak st b).map (fun e => e.2.1)).sum
      = ((st.map (fun e => e.2.1)).sum)
        + ((b.map (fun li => li.percentage)).sum) := by
  induction b with
  | nil => intro st; simp [foldBreak]
  | cons e b2 ih =>
    intro st
    have hstep : foldBreak st (e :: b2) =
        foldBreak (statsAdd st e.language e.percentage) b2 := rfl
    rw [hstep, ih, statsAdd_total, List.map_cons, List.sum_cons]
    ring

theorem foldBreak_keys_nodup (b : List LanguageInfo) :
    ∀ st : List (String × ℚ × Int),
    (st.map (fun e => e.1)).Nodup →
    ((foldBreak st b).map (fun e => e.1)).Nodup := by
  induction b with
  | nil => intro st h; exact h
  | cons e b2 ih =>
    intro st h
    exact ih (statsAdd st e.language e.percentage)
      (statsAdd_keys_nodup st e.language e.percentage h)

theorem itemsFold_lookup_fst :
    ∀ (items : List (Nat × OssInsightRow × ProcOut))
      (st : List (String × ℚ × Int)) (lang : String),
    (statsLookup (items.foldl (fun st t => foldBreak st t.2.2.breakdown) st)
        lang).1
      = (statsLookup st lang).1
        + ((items.map (fun t => langSumIn t.2.2.breakdown lang)).sum) := by
  intro items
  induction items with
  | nil => intro st lang; simp
  | cons t ts ih =>
    intro st lang
    rw [List.foldl_cons, ih, statsLookup_foldBreak_fst, List.map_cons,
      List.sum_cons]
    ring

theorem itemsFold_lookup_snd :
    ∀ (items : List (Nat × OssInsightRow × ProcOut))
      (st : List (String × ℚ × Int)) (lang : String),
    (statsLookup (items.foldl (fun st t => foldBreak st t.2.2.breakdown) st)
        lang).2
      = (statsLookup st lang).2
        + ((items.map
            (fun t => (langCountIn t.2.2.breakdown lang : Int))).sum) := by
  intro items
  induction items with
  | nil => intro st lang; simp
  | cons t ts ih =>
    intro st lang
    rw [List.foldl_cons, ih, statsLookup_foldBreak_snd, List.map_cons,
      List.sum_cons]
    ring

theorem itemsFold_total :
    ∀ (items : List (Nat × OssInsightRow × ProcOut))
      (st : List (String × ℚ × Int)),
    (((items.foldl (fun st t => foldBreak st t.2.2.breakdown) st)).map
        (fun e => e.2.1)).sum
      = ((st.map (fun e => e.2.1)).sum)
        + ((items.map
            (fun t => ((t.2.2.breakdown.map (fun li => li.percentage)).sum))).sum) := by
  intro items
  induction items with
  | nil => intro st; simp
  | cons t ts ih =>
    intro st
    rw [List.foldl_cons, ih, foldBreak_total, List.map_cons, List.sum_cons]
    ring

theorem itemsFold_keys_nodup :
    ∀ (items : List (Nat × OssInsightRow × ProcOut))
      (st : List (String × ℚ × Int)),
    (st.map (fun e => e.1)).Nodup →
    (((items.foldl (fun st t => foldBreak st t.2.2.breakdown) st)).map
        (fun e => e.1)).Nodup := by
  intro items
  induction items with
  | nil => intro st h; exact h
  | cons t ts ih =>
    intro st h
    exact ih _ (foldBreak_keys_nodup t.2.2.breakdown st h)

theorem sum_filter_of_zero {α β : Type} [AddCommMonoid β]
    (f : α → β) (p : α → Bool) :
    ∀ l : List α, (∀ x ∈ l, p x = false → f x = 0) →
    ((l.filter p).map f).sum = (l.map f).sum := by
  intro l
  induction l with
  | nil => intro _; rfl
  | cons x xs ih =>
    intro h
    have hx := h x (List.mem_cons_self x xs)
    have htl := fun y hy => h y (List.mem_cons_of_mem x hy)
    rw [List.filter_cons]
    cases hp : p x with
    | true =>
      simp [List.map_cons, List.sum_cons, ih htl]
    | false =>
      simp [List.map_cons, List.sum_cons, ih htl, hx hp]

theorem langCountIn_eq_zero (b : List LanguageInfo) (lang : String)
    (h : ∀ li ∈ b, ¬ li.language = lang) : langCountIn b lang = 0 := by
  rw [langCountIn]
  rw [List.filter_eq_nil_iff.mpr (by simpa using h)]
  rfl

theorem langCountIn_of_nodup (b : List LanguageInfo) (lang : String)
    (h : (b.map (fun li => li.language)).Nodup) :
    (langCountIn b lang : Int) =
      if b.any (fun li => li.language = lang) then 1 else 0 := by
  induction b with
  | nil => simp [langCountIn]
  | cons e b2 ih =>
    rw [List.map_cons, List.nodup_cons] at h
    by_cases he : e.language = lang
    · have hz : langCountIn b2 lang = 0 := by
        apply langCountIn_eq_zero
        intro li hli hc
        apply h.1
        rw [he, ← hc]
        exact List.mem_map.mpr ⟨li, hli, rfl⟩
      have hcnt : langCountIn (e :: b2) lang = langCountIn b2 lang + 1 := by
        simp [langCountIn, List.filter_cons, he]
      rw [hcnt, hz]
      have hany : (e :: b2).any (fun li => li.language = lang) = true := by
        simp [List.any_cons, he]
      rw [if_pos hany]
      rfl
    · have hcnt : langCountIn (e :: b2) lang = langCountIn b2 lang := by
        simp [langCountIn, List.filter_cons, he]
      have hany : (e :: b2).any (fun li => li.language = lang)
          = b2.any (fun li => li.language = lang) := by
        simp [List.any_cons, he]
      rw [hcnt, hany, ih h.2]

theorem sum_indicator_eq_filter_length {α : Type} (q : α → Bool) :
    ∀ l : List α,
    ((l.map (fun x => if q x then (1 : Int) else 0)).sum)
      = ((l.filter q).length : Int) := by
  intro l
  induction l with
  | nil => rfl
  | cons x xs ih =>
    rw [List.map_cons, List.sum_cons, List.filter_cons]
    cases hq : q x with
    | true =>
      rw [if_pos (by simp), if_pos (by simp [hq]), List.length_cons, ih]
      push_cast
      ring
    | false =>
      rw [if_neg (by simp [hq]), if_neg (by simp [hq]), ih]
      ring

theorem breakdownFor_names_nodup (env : Env) (name : String)
    (h : (bodyKeys (env.langResponse name)).Nodup) :
    ((breakdownFor env name).map (fun li => li.language)).Nodup := by
  rw [breakdownFor]
  cases hresp : env.langResponse name with
  | sendError e => simp [get_repo_languages]
  | jsonError e => simp [get_repo_languages]
  | notSuccess => simp [get_repo_languages]
  | body langs =>
    rw [hresp] at h
    show (List.map (fun li => li.language)
      (match get_repo_languages (.body langs) env.threshold with
       | .ok l => l
       | .error _ => [])).Nodup
    rw [get_repo_languages]
    by_cases h0 : totalBytes langs = 0
    · rw [if_pos h0]
      simp
    · rw [if_neg h0]
      have hkeys : ((langs.map (fun p =>
          { language := p.1
            percentage := (p.2 : ℚ) / (totalBytes langs : ℚ) * 100
            : LanguageInfo })).map (fun li => li.language)).Nodup := by
        rw [List.map_map]
        exact h
      have hfil : (((langs.map (fun p =>
          { language := p.1
            percentage := (p.2 : ℚ) / (totalBytes langs : ℚ) * 100
            : LanguageInfo })).filter
            (fun li => env.threshold * 100 ≤ li.percentage)).map
          (fun li => li.language)).Nodup :=
        List.Nodup.sublist ((List.filter_sublist _).map _) hkeys
      have hperm := (List.perm_insertionSort langGE
        ((langs.map (fun p =>
          { language := p.1
            percentage := (p.2 : ℚ) / (totalBytes langs : ℚ) * 100
            : LanguageInfo })).filter
            (fun li => env.threshold * 100 ≤ li.percentage))).map
        (fun li => li.language)
      exact hperm.nodup_iff.mpr hfil

theorem breakdownFor_nonneg (env : Env) (name : String) :
    ∀ li ∈ breakdownFor env name, 0 ≤ li.percentage := by
  intro li hli
  rw [breakdownFor] at hli
  cases hresp : env.langResponse name with
  | sendError e => rw [hresp] at hli; simp [get_repo_languages] at hli
  | jsonError e => rw [hresp] at hli; simp [get_repo_languages] at hli
  | notSuccess => rw [hresp] at hli; simp [get_repo_languages] at hli
  | body langs =>
    rw [hresp] at hli
    by_cases h0 : totalBytes langs = 0
    · simp only [get_repo_languages, if_pos h0] at hli
      simp at hli
    · simp only [get_repo_languages, if_neg h0] at hli
      have hmem := (List.perm_insertionSort langGE _).mem_iff.mp hli
      have hmem2 := List.mem_of_mem_filter hmem
      obtain ⟨p, -, hp⟩ := List.mem_map.mp hmem2
      rw [← hp]
      show (0 : ℚ) ≤ ((p.2 : ℚ) / (totalBytes langs : ℚ)) * 100
      positivity

theorem itemsFor_mem_breakdown (env : Env) (rs : List OssInsightRow)
    (t : Nat × OssInsightRow × ProcOut) (ht : t ∈ itemsFor env rs) :
    (t.2.2.skipped = true ∧ t.2.2.breakdown = [])
    ∨ (t.2.2.skipped = false
        ∧ t.2.2.breakdown = breakdownFor env t.2.1.repo_name
        ∧ t.2.1 ∈ rs) := by
  obtain ⟨-, hget, hproc⟩ := loopItems_shape env (skipOf env) rs.length rs 0 t ht
  have hmem : t.2.1 ∈ rs := List.getElem?_mem hget
  by_cases h : parseRepoId t.2.1.repo_id ∈ skipOf env
  · left
    rw [hproc, processCandidate_skip env _ _ _ _ h]
    exact ⟨rfl, rfl⟩
  · right
    rw [hproc, processCandidate_run env _ _ _ _ h]
    exact ⟨rfl, rfl, hmem⟩

theorem statsFor_keys_nodup (env : Env) (rs : List OssInsightRow) :
    ((statsFor env rs).map (fun e => e.1)).Nodup :=
  itemsFold_keys_nodup (itemsFor env rs) [] List.nodup_nil

theorem statsFor_lookup_fst (env : Env) (rs : List OssInsightRow)
    (lang : String) :
    (statsLookup (statsFor env rs) lang).1 = runLangSum env rs lang := by
  rw [statsFor, itemsFold_lookup_fst]
  have h0 : (statsLookup [] lang).1 = 0 := rfl
  rw [h0, zero_add, runLangSum, breakdownsFor, List.map_map]
  refine (sum_filter_of_zero
    (fun t : Nat × OssInsightRow × ProcOut => langSumIn t.2.2.breakdown lang)
    (fun t => !t.2.2.skipped) (itemsFor env rs) ?_).symm
  intro t ht hp
  have hp2 : (!t.2.2.skipped) = false := hp
  show langSumIn t.2.2.breakdown lang = 0
  rcases itemsFor_mem_breakdown env rs t ht with ⟨-, hb⟩ | ⟨hsk, -, -⟩
  · rw [hb]
    simp [langSumIn]
  · rw [hsk] at hp2
    simp at hp2

theorem statsFor_lookup_snd (env : Env) (rs : List OssInsightRow)
    (lang : String)
    (hnd : ∀ r ∈ rs, (bodyKeys (env.langResponse r.repo_name)).Nodup) :
    (statsLookup (statsFor env rs) lang).2
      = (reposContaining env rs lang : Int) := by
  rw [statsFor, itemsFold_lookup_snd]
  have h0 : (statsLookup [] lang).2 = 0 := rfl
  rw [h0, zero_add]
  have hfil : ((itemsFor env rs).map
      (fun t => (langCountIn t.2.2.breakdown lang : Int))).sum
      = (((itemsFor env rs).filter (fun t => !t.2.2.skipped)).map
          (fun t => (langCountIn t.2.2.breakdown lang : Int))).sum := by
    refine (sum_filter_of_zero
      (fun t : Nat × OssInsightRow × ProcOut =>
        (langCountIn t.2.2.breakdown lang : Int))
      (fun t => !t.2.2.skipped) (itemsFor env rs) ?_).symm
    intro t ht hp
    have hp2 : (!t.2.2.skipped) = false := hp
    show (langCountIn t.2.2.breakdown lang : Int) = 0
    rcases itemsFor_mem_breakdown env rs t ht with ⟨-, hb⟩ | ⟨hsk, -, -⟩
    · rw [hb]
      simp [langCountIn]
    · rw [hsk] at hp2
      simp at hp2
  rw [hfil]
  have hind : (((itemsFor env rs).filter (fun t => !t.2.2.skipped)).map
      (fun t => (langCountIn t.2.2.breakdown lang : Int))).sum
      = (((itemsFor env rs).filter (fun t => !t.2.2.skipped)).map
          (fun t => if t.2.2.breakdown.any (fun li => li.language = lang)
            then (1 : Int) else 0)).sum := by
    apply congrArg List.sum
    apply List.map_congr_left
    intro t ht
    rw [List.mem_filter] at ht
    rcases itemsFor_mem_breakdown env rs t ht.1 with ⟨hsk, -⟩ | ⟨-, hb, hmem⟩
    · rw [hsk] at ht
      simp at ht
    · rw [hb]
      exact langCountIn_of_nodup _ lang
        (breakdownFor_names_nodup env t.2.1.repo_name (hnd t.2.1 hmem))
  rw [hind, sum_indicator_eq_filter_length, reposContaining, breakdownsFor]
  rw [List.filter_map, List.length_map]
  rfl

theorem totalMass_nonneg (env : Env) (rs : List OssInsightRow) :
    0 ≤ totalMassFor env rs := by
  rw [totalMassFor, statsFor, itemsFold_total]
  have h0 : (((
      [] : List (String × ℚ × Int)).map (fun e => e.2.1)).sum) = 0 := rfl
  rw [h0, zero_add]
  apply ratSum_nonneg
  intro x hx
  obtain ⟨t, ht, hxt⟩ := List.mem_map.mp hx
  rw [← hxt]
  apply ratSum_nonneg
  intro y hy
  obtain ⟨li, hli, hyl⟩ := List.mem_map.mp hy
  rw [← hyl]
  rcases itemsFor_mem_breakdown env rs t ht with ⟨-, hb⟩ | ⟨-, hb, -⟩
  · rw [hb] at hli
    simp at hli
  · rw [hb] at hli
    exact breakdownFor_nonneg env t.2.1.repo_name li hli

/-- C1: with a nonzero accumulated mass, every attempted language-trend
row carries today's date, the normalized value
`(language sum / total mass) * 100`, and a repo count equal to the number
of processed candidates whose breakdown mentions that language; and every
language appearing in a processed breakdown has such a row. -/
theorem trend_normalization (env : Env) (rs : List OssInsightRow)
    (hrs : env.trending = .ok rs)
    (hnd : ∀ r ∈ rs, (bodyKeys (env.langResponse r.repo_name)).Nodup)
    (hmass : totalMassFor env rs ≠ 0) :
    collect env = .ok (collectedFor env rs, runLogFor env rs)
    ∧ (∀ tr ∈ (runLogFor env rs).attemptedTrendRows,
        tr.date = env.today
        ∧ tr.normalized_percentage =
            runLangSum env rs tr.language / totalMassFor env rs * 100
        ∧ tr.repo_count = (reposContaining env rs tr.language : Int))
    ∧ (∀ lang : String,
        (∃ b ∈ breakdownsFor env rs, ∃ li ∈ b, li.language = lang) →
        ∃ tr ∈ (runLogFor env rs).attemptedTrendRows, tr.language = lang)
    ∧ totalMassFor env rs =
        ((breakdownsFor env rs).map
          (fun b => (b.map (fun li => li.percentage)).sum)).sum := by
  have hpos : 0 < totalMassFor env rs :=
    lt_of_le_of_ne (totalMass_nonneg env rs) (Ne.symm hmass)
  have htr : (runLogFor env rs).attemptedTrendRows =
      (statsFor env rs).map (fun e =>
        { date := env.today, language := e.1
          normalized_percentage := e.2.1 / totalMassFor env rs * 100
          repo_count := e.2.2 : LanguageTrend }) := by
    show trendsFor env rs = _
    rw [trendsFor, if_pos hpos]
  refine ⟨by simp [collect, hrs], ?_, ?_, ?_⟩
  · intro tr htrm
    rw [htr] at htrm
    obtain ⟨e, he, hetr⟩ := List.mem_map.mp htrm
    obtain ⟨lang, s, c⟩ := e
    have hlook : statsLookup (statsFor env rs) lang = (s, c) :=
      statsLookup_of_mem (statsFor env rs) lang s c
        (statsFor_keys_nodup env rs) he
    have hs : s = runLangSum env rs lang := by
      rw [← statsFor_lookup_fst env rs lang, hlook]
    have hc : c = (reposContaining env rs lang : Int) := by
      rw [← statsFor_lookup_snd env rs lang hnd, hlook]
    rw [← hetr]
    exact ⟨rfl, by rw [hs], by rw [hc]⟩
  · intro lang hex
    obtain ⟨b, hb, li, hli, hlang⟩ := hex
    have hcount : 1 ≤ reposContaining env rs lang := by
      rw [reposContaining]
      have hbmem : b ∈ (breakdownsFor env rs).filter
          (fun b2 => b2.any (fun li2 => li2.language = lang)) := by
        rw [List.mem_filter]
        exact ⟨hb, by
          simp only [List.any_eq_true]
          exact ⟨li, hli, by simp [hlang]⟩⟩
      calc 1 ≤ 1 := le_refl 1
        _ ≤ _ := List.length_pos.mpr (List.ne_nil_of_mem hbmem)
    have hsnd : (statsLookup (statsFor env rs) lang).2 ≠ 0 := by
      rw [statsFor_lookup_snd env rs lang hnd]
      omega
    have hkey : lang ∈ (statsFor env rs).map (fun e => e.1) := by
      by_contra hno
      rw [statsLookup_not_mem (statsFor env rs) lang hno] at hsnd
      exact hsnd rfl
    obtain ⟨e, hes, hekey⟩ := List.mem_map.mp hkey
    refine ⟨{ date := env.today, language := e.1
              normalized_percentage := e.2.1 / totalMassFor env rs * 100
              repo_count := e.2.2 }, ?_, hekey⟩
    rw [htr]
    exact List.mem_map.mpr ⟨e, hes, rfl⟩
  · rw [totalMassFor, statsFor, itemsFold_total]
    have h0 : ((([] : List (String × ℚ × Int)).map (fun e => e.2.1)).sum) = 0 := rfl
    rw [h0, zero_add, breakdownsFor, List.map_map]
    refine (sum_filter_of_zero
      (fun t : Nat × OssInsightRow × ProcOut =>
        ((t.2.2.breakdown.map (fun li => li.percentage)).sum))
      (fun t => !t.2.2.skipped) (itemsFor env rs) ?_).symm
    intro t ht hp
    have hp2 : (!t.2.2.skipped) = false := hp
    show ((t.2.2.breakdown.map (fun li => li.percentage)).sum) = 0
    rcases itemsFor_mem_breakdown env rs t ht with ⟨-, hb⟩ | ⟨hsk, -, -⟩
    · rw [hb]
      simp
    · rw [hsk] at hp2
      simp at hp2

/-- Witness for C1 on the spec's normalization example: repo 1 with
[(A,40),(B,60)] and repo 2 with [(A,20),(B,80)] yield trends A = 30 and
B = 70, each with repo_count 2, on a total mass of 200. -/
theorem trend_normalization_witness :
    totalMassFor envA rowsA = 200
    ∧ (∀ r ∈ rowsA, (bodyKeys (envA.langResponse r.repo_name)).Nodup)
    ∧ trendsFor envA rowsA =
        [{ date := "2026-10-12", language := "B"
           normalized_percentage := 70, repo_count := 2 },
         { date := "2026-10-12", language := "A"
           normalized_percentage := 30, repo_count := 2 }]
    ∧ (∀ tr ∈ (runLogFor envA rowsA).attemptedTrendRows,
        tr.date = envA.today
        ∧ tr.normalized_percentage =
            runLangSum envA rowsA tr.language / totalMassFor envA rowsA * 100
        ∧ tr.repo_count = (reposContaining envA rowsA tr.language : Int)) := by
  have hnd : ∀ r ∈ rowsA, (bodyKeys (envA.langResponse r.repo_name)).Nodup := by
    with_unfolding_all decide
  have hm : totalMassFor envA rowsA = 200 := by with_unfolding_all decide
  refine ⟨hm, hnd, ?_, (trend_normalization envA rowsA rfl hnd
    (by rw [hm]; decide)).2.1⟩
  with_unfolding_all decide

/-- Witness for C10 at the unparsable id string "abc": identifier 0; with
0 in the skip set the candidate is skipped, with an empty skip set its
record carries repo_id 0. -/
theorem unparsable_id_collapses_to_zero_witness :
    parseI64 (mkRow "abc" "octo/weird").repo_id = none
    ∧ parseRepoId (mkRow "abc" "octo/weird").repo_id = 0
    ∧ processCandidate envA [0] 1 0 (mkRow "abc" "octo/weird") = skippedOut
    ∧ (processCandidate envA [] 1 0 (mkRow "abc" "octo/weird")).record =
        some (mkRecord envA (mkRow "abc" "octo/weird")
          (summaryFor envA (mkRow "abc" "octo/weird").repo_name)) := by
  have h : parseI64 (mkRow "abc" "octo/weird").repo_id = none := by decide
  have ha := unparsable_id_collapses_to_zero envA [0] 1 0 (mkRow "abc" "octo/weird") h
  have hb := unparsable_id_collapses_to_zero envA [] 1 0 (mkRow "abc" "octo/weird") h
  exact ⟨h, ha.1, ha.2.1 (by decide), (hb.2.2.1 (by simp)).1⟩

/-- C4: per-candidate fault isolation.  For a non-skipped candidate: a
README-fetch failure or absence yields a null summary but the language
fetch, the record persistence attempt and the aggregation input are
exactly those of the normal path; a summarizer failure likewise yields a
null summary; a language-fetch failure yields an empty breakdown without
touching the record; a record-persistence failure only clears the success
flag; and the whole iteration depends on none of the oracles of any other
repo name, so it cannot affect or be affected by other candidates. -/
theorem per_candidate_fault_isolation (env : Env) (skip : List Int)
    (total i : Nat) (repo : OssInsightRow)
    (hns : parseRepoId repo.repo_id ∉ skip) :
    (((∃ e, env.readme repo.repo_name = .error e)
        ∨ env.readme repo.repo_name = .ok none) →
      (processCandidate env skip total i repo).record =
        some (mkRecord env repo none)
      ∧ (processCandidate env skip total i repo).languageCalled = true
      ∧ (processCandidate env skip total i repo).breakdown =
          breakdownFor env repo.repo_name
      ∧ (processCandidate env skip total i repo).recordSaved =
          env.saveTrendingRepoOk (mkRecord env repo none))
    ∧ (∀ doc e2, env.readme repo.repo_name = .ok (some doc) →
        env.summarize doc repo.repo_name = .error e2 →
        (processCandidate env skip total i repo).record =
          some (mkRecord env repo none)
        ∧ (processCandidate env skip total i repo).breakdown =
            breakdownFor env repo.repo_name)
    ∧ (∀ e3, get_repo_languages (env.langResponse repo.repo_name)
          env.threshold = .error e3 →
        (processCandidate env skip total i repo).breakdown = []
        ∧ (processCandidate env skip total i repo).record =
            some (mkRecord env repo (summaryFor env repo.repo_name)))
    ∧ (env.saveTrendingRepoOk
          (mkRecord env repo (summaryFor env repo.repo_name)) = false →
        (processCandidate env skip total i repo).recordSaved = false
        ∧ (processCandidate env skip total i repo).breakdown =
            breakdownFor env repo.repo_name
        ∧ (processCandidate env skip total i repo).event ≠ none)
    ∧ (∀ env2 : Env, env2.today = env.today →
        env2.threshold = env.threshold →
        env2.readme repo.repo_name = env.readme repo.repo_name →
        (∀ doc, env2.summarize doc repo.repo_name =
          env.summarize doc repo.repo_name) →
        env2.langResponse repo.repo_name = env.langResponse repo.repo_name →
        (∀ row, env2.saveRepoLanguageOk row = env.saveRepoLanguageOk row) →
        (∀ rec, env2.saveTrendingRepoOk rec = env.saveTrendingRepoOk rec) →
        processCandidate env2 skip total i repo =
          processCandidate env skip total i repo) := by
  refine ⟨?_, ?_, ?_, ?_, ?_⟩
  · intro hrd
    have hsum : summaryFor env repo.repo_name = none := by
      rcases hrd with ⟨e, he⟩ | he <;> rw [summaryFor, he]
    rw [processCandidate_run env skip total i repo hns, hsum]
    exact ⟨rfl, rfl, rfl, rfl⟩
  · intro doc e2 hdoc hfail
    have hsum : summaryFor env repo.repo_name = none := by
      simp only [summaryFor, hdoc, hfail]
    rw [processCandidate_run env skip total i repo hns, hsum]
    exact ⟨rfl, rfl⟩
  · intro e3 hlf
    have hbd : breakdownFor env repo.repo_name = [] := by
      rw [breakdownFor, hlf]
    rw [processCandidate_run env skip total i repo hns, hbd]
    exact ⟨rfl, rfl⟩
  · intro hsave
    rw [processCandidate_run env skip total i repo hns]
    refine ⟨hsave, rfl, ?_⟩
    intro hcontra
    exact Option.noConfusion hcontra
  · intro env2 htoday hth hrd hsm hlg hslo hsto
    have hsum : summaryFor env2 repo.repo_name = summaryFor env repo.repo_name := by
      rw [summaryFor, summaryFor, hrd]
      cases env.readme repo.repo_name with
      | error e => rfl
      | ok o =>
        cases o with
        | none => rfl
        | some doc => simp only [hsm doc]
    have hbd : breakdownFor env2 repo.repo_name = breakdownFor env repo.repo_name := by
      rw [breakdownFor, breakdownFor, hlg, hth]
    have hmk : ∀ summ, mkRecord env2 repo summ = mkRecord env repo summ := by
      intro summ
      rw [mkRecord, mkRecord, htoday]
    have hlr : ∀ (id : Int) (b : List LanguageInfo),
        langRowsFor env2 id b = langRowsFor env id b := by
      intro id b
      rw [langRowsFor, langRowsFor, htoday]
    have hsl : env2.saveRepoLanguageOk = env.saveRepoLanguageOk := funext hslo
    have hst : env2.saveTrendingRepoOk = env.saveTrendingRepoOk := funext hsto
    rw [processCandidate_run env2 skip total i repo hns,
      processCandidate_run env skip total i repo hns,
      hsum, hbd, hmk, hlr, hsl, hst, hrd]

/-- C9: on a successful fetch with a positive byte total, the breakdown is
exactly (as a permutation, presented sorted by descending percentage) the
languages whose percentage `bytes/total*100` is at or above
`threshold*100`, and those percentages sum to at most 100; on an
unsuccessful HTTP status the client returns an empty breakdown, and on a
transport or decode failure it returns the error, which the collector
turns into an empty breakdown. -/
theorem language_breakdown_spec (langs : List (String × Nat)) (t : ℚ)
    (h : 0 < totalBytes langs) :
    (∃ l, get_repo_languages (.body langs) t = .ok l
      ∧ l.Perm ((langs.map (fun p =>
          { language := p.1
            percentage := (p.2 : ℚ) / (totalBytes langs : ℚ) * 100
            : LanguageInfo })).filter
          (fun li => t * 100 ≤ li.percentage))
      ∧ (l.map (fun li => li.percentage)).sum ≤ 100
      ∧ l.Pairwise (fun a b => b.percentage ≤ a.percentage))
    ∧ (∀ e, get_repo_languages (.sendError e) t = .error e)
    ∧ get_repo_languages (HttpOutcome.notSuccess) t = .ok []
    ∧ (∀ e, get_repo_languages (.jsonError e) t = .error e)
    ∧ (∀ (env : Env) (name : String),
        (env.langResponse name = .notSuccess
          ∨ (∃ e, env.langResponse name = .sendError e)
          ∨ (∃ e, env.langResponse name = .jsonError e)) →
        breakdownFor env name = []) := by
  refine ⟨?_, fun e => rfl, rfl, fun e => rfl, ?_⟩
  · set T : Nat := totalBytes langs with hT
    set L : List LanguageInfo := (langs.map (fun p =>
        { language := p.1
          percentage := (p.2 : ℚ) / (T : ℚ) * 100 : LanguageInfo })).filter
        (fun li => t * 100 ≤ li.percentage) with hL
    refine ⟨List.insertionSort langGE L, ?_, List.perm_insertionSort langGE L,
      ?_, ?_⟩
    · show (if T = 0 then Except.ok [] else _) = _
      rw [if_neg (by omega)]
    · have hperm : List.Perm
          ((List.insertionSort langGE L).map (fun li => li.percentage))
          (L.map (fun li => li.percentage)) :=
        (List.perm_insertionSort langGE L).map _
      rw [hperm.sum_eq]
      have hsub : List.Sublist
          (L.map (fun li => li.percentage))
          ((langs.map (fun p =>
            { language := p.1
              percentage := (p.2 : ℚ) / (T : ℚ) * 100
              : LanguageInfo })).map (fun li => li.percentage)) :=
        (List.filter_sublist _).map _
      have hnon : ∀ x ∈ (langs.map (fun p =>
          { language := p.1
            percentage := (p.2 : ℚ) / (T : ℚ) * 100
            : LanguageInfo })).map (fun li => li.percentage), 0 ≤ x := by
        intro x hx
        rw [List.map_map, List.mem_map] at hx
        obtain ⟨p, -, hp⟩ := hx
        rw [← hp]
        show (0 : ℚ) ≤ ((p.2 : ℚ) / (T : ℚ)) * 100
        positivity
      have hle := List.Sublist.sum_le_sum hsub hnon
      have hsum100 : ((langs.map (fun p =>
          { language := p.1
            percentage := (p.2 : ℚ) / (T : ℚ) * 100
            : LanguageInfo })).map (fun li => li.percentage)).sum = 100 := by
        rw [List.map_map]
        have hfe : ((fun li : LanguageInfo => li.percentage) ∘ (fun p : String × Nat =>
            { language := p.1
              percentage := (p.2 : ℚ) / (T : ℚ) * 100
              : LanguageInfo })) = fun p : String × Nat =>
            ((p.2 : Nat) : ℚ) * ((100 : ℚ) / (T : ℚ)) := by
          funext p
          show ((p.2 : ℚ) / (T : ℚ)) * 100 = ((p.2 : Nat) : ℚ) * ((100 : ℚ) / (T : ℚ))
          ring
        rw [hfe, List.sum_map_mul_right]
        have hcast : (langs.map (fun p : String × Nat => ((p.2 : Nat) : ℚ))).sum
            = (T : ℚ) := by
          rw [hT, totalBytes, Nat.cast_list_sum, List.map_map]
          rfl
        rw [hcast]
        rw [mul_comm]
        exact div_mul_cancel₀ 100 (by exact_mod_cast Nat.pos_iff_ne_zero.mp h)
      rw [hsum100] at hle
      exact hle
    · exact (List.sorted_insertionSort langGE L).imp (fun hab => hab)
  · intro env name hfail
    rcases hfail with hcase | ⟨e, hcase⟩ | ⟨e, hcase⟩ <;>
      simp [breakdownFor, hcase, get_repo_languages]

/-- Witness for C9 on a concrete byte map with a 50% threshold: only B
(60%) survives. -/
theorem language_breakdown_spec_witness :
    0 < totalBytes [("A", 40), ("B", 60)]
    ∧ (∃ l, get_repo_languages (.body [("A", 40), ("B", 60)]) (1/2) = .ok l
      ∧ l.Perm (([("A", 40), ("B", 60)].map (fun p =>
          { language := p.1
            percentage := (p.2 : ℚ) / (totalBytes [("A", 40), ("B", 60)] : ℚ) * 100
            : LanguageInfo })).filter
          (fun li => (1 : ℚ)/2 * 100 ≤ li.percentage))
      ∧ (l.map (fun li => li.percentage)).sum ≤ 100
      ∧ l.Pairwise (fun a b => b.percentage ≤ a.percentage)) := by
  have h : 0 < totalBytes [("A", 40), ("B", 60)] := by decide
  exact ⟨h, (language_breakdown_spec [("A", 40), ("B", 60)] (1/2) h).1⟩

/-- Witness for C4: a concrete failing README fetch, failing language
fetch, and failing persistence around candidate "1". -/
theorem per_candidate_fault_isolation_witness :
    parseRepoId (mkRow "1" "octo/alpha").repo_id ∉ skipOf envC4
    ∧ (processCandidate envC4 (skipOf envC4) 2 0 (mkRow "1" "octo/alpha")).record =
        some (mkRecord envC4 (mkRow "1" "octo/alpha") none)
    ∧ (processCandidate envC4 (skipOf envC4) 2 0 (mkRow "1" "octo/alpha")).languageCalled = true
    ∧ (processCandidate envC4 (skipOf envC4) 2 0 (mkRow "1" "octo/alpha")).breakdown =
        breakdownFor envC4 "octo/alpha" := by
  have hns : parseRepoId (mkRow "1" "octo/alpha").repo_id ∉ skipOf envC4 := by
    with_unfolding_all decide
  have h := (per_candidate_fault_isolation envC4 (skipOf envC4) 2 0
    (mkRow "1" "octo/alpha") hns).1 (Or.inl ⟨"net", rfl⟩)
  exact ⟨hns, h.1, h.2.1, h.2.2.1⟩

end DGB
